import Mathlib

/-!
Verification development for the `mqtt::thread_queue` template class of the
Paho MQTT C++ library (`include/mqtt/thread_queue.h`).

The queue state is embedded shallowly: the mutex and the two condition
variables synchronize access but carry no data, so a queue state is exactly
the triple of its data members `cap_`, `closed_`, `que_`.  Each public
method becomes a pure function on that state.  For the two operations that
can block indefinitely or throw `queue_closed` (`put`, the two `get`
overloads), the result type records explicitly which of the three outcomes
the source takes: normal return, `queue_closed` thrown, or a wait whose
predicate is false (which, in a single-threaded execution where no other
thread can change the state, blocks forever).  For the bounded waits the
timeout outcome of the condition-variable wait is environment-determined,
so it is passed as an explicit boolean parameter `tmo` (the variable named
`to` in the source), and the queue parameter is the state observed once
the lock is re-acquired after the wait.
-/

namespace Mqtt

/-- `std::numeric_limits<size_type>::max()` for `size_type = std::size_t`
on the 64-bit targets the library is built for. -/
def MAX_CAPACITY : Nat := 2 ^ 64 - 1

/-- State of a `thread_queue<T>`: the capacity `cap_`, the closed flag
`closed_` and the item container `que_` (front of the queue at the head of
the list). -/
structure ThreadQueue (α : Type) where
  cap : Nat
  closed : Bool
  que : List α
  deriving DecidableEq, Repr

/-- Default constructor `thread_queue()`: unbounded capacity, open, empty. -/
def ThreadQueue.mk_default (α : Type) : ThreadQueue α :=
  { cap := MAX_CAPACITY, closed := false, que := [] }

/-- Constructor `thread_queue(size_t cap)`: capacity clamped to at least 1. -/
def ThreadQueue.mk_bounded (α : Type) (cap : Nat) : ThreadQueue α :=
  { cap := max cap 1, closed := false, que := [] }

variable {α : Type}

/-- `empty()`. -/
def ThreadQueue.emptyq (q : ThreadQueue α) : Bool := q.que.isEmpty

/-- `capacity()` (the getter). -/
def ThreadQueue.capacity (q : ThreadQueue α) : Nat := q.cap

/-- `capacity(size_type cap)` (the setter): `cap_ = std::max(cap, 1)`;
the `notify_all` on `notFullCond_` carries no state. -/
def ThreadQueue.set_capacity (q : ThreadQueue α) (cap : Nat) : ThreadQueue α :=
  { q with cap := max cap 1 }

/-- `size()`. -/
def ThreadQueue.size (q : ThreadQueue α) : Nat := q.que.length

/-- `close()`: sets `closed_ = true` and wakes all waiters (the wakes carry
no state). -/
def ThreadQueue.close (q : ThreadQueue α) : ThreadQueue α :=
  { q with closed := true }

/-- `closed()` (the getter). -/
def ThreadQueue.closedq (q : ThreadQueue α) : Bool := q.closed

/-- `is_done()` (private helper): `closed_ && que_.empty()`. -/
def ThreadQueue.is_done (q : ThreadQueue α) : Bool := q.closed && q.que.isEmpty

/-- `done()`: `is_done()` under the lock. -/
def ThreadQueue.done (q : ThreadQueue α) : Bool := q.is_done

/-- `clear()`: pops every item; the `notify_all` carries no state. -/
def ThreadQueue.clear (q : ThreadQueue α) : ThreadQueue α :=
  { q with que := [] }

/-- Outcome of the blocking `put`: normal return with the new state,
`queue_closed` thrown (state at the throw), or a forever-blocked wait. -/
inductive PutRes (α : Type) where
  | ok (q : ThreadQueue α)
  | closedEx (q : ThreadQueue α)
  | blocks
  deriving DecidableEq, Repr

/-- The queue state an operation left behind, when it returned or threw. -/
def PutRes.qstate : PutRes α → Option (ThreadQueue α)
  | .ok q => some q
  | .closedEx q => some q
  | .blocks => none

/-- `put(value_type val)`: wait until `que_.size() < cap_ || closed_`; if
closed throw `queue_closed`; otherwise emplace at the back.  In a
single-threaded execution a false wait predicate never becomes true, so
that case is `blocks`. -/
def ThreadQueue.put (q : ThreadQueue α) (val : α) : PutRes α :=
  if q.que.length < q.cap ∨ q.closed = true then
    if q.closed then .closedEx q
    else .ok { q with que := q.que ++ [val] }
  else .blocks

/-- `try_put(value_type val)`: returns false leaving the state alone when
full or closed, else emplaces and returns true. -/
def ThreadQueue.try_put (q : ThreadQueue α) (val : α) : Bool × ThreadQueue α :=
  if q.cap ≤ q.que.length ∨ q.closed = true then (false, q)
  else (true, { q with que := q.que ++ [val] })

/-- `try_put_for(val, relTime)`: `tmo` is the timeout outcome of
`wait_for` (`true` exactly when the wait expired with the predicate still
false); `q` is the state once the lock is held again after the wait.
`if (to || closed_) return false;` else emplace and return true. -/
def ThreadQueue.try_put_for (q : ThreadQueue α) (val : α) (tmo : Bool) :
    Bool × ThreadQueue α :=
  if tmo ∨ q.closed = true then (false, q)
  else (true, { q with que := q.que ++ [val] })

/-- `try_put_until(val, absTime)`: same decision structure as
`try_put_for`, with `wait_until` in place of `wait_for`. -/
def ThreadQueue.try_put_until (q : ThreadQueue α) (val : α) (tmo : Bool) :
    Bool × ThreadQueue α :=
  if tmo ∨ q.closed = true then (false, q)
  else (true, { q with que := q.que ++ [val] })

/-- Outcome of the value-returning blocking `get`. -/
inductive GetRes (α : Type) where
  | ok (val : α) (q : ThreadQueue α)
  | closedEx (q : ThreadQueue α)
  | blocks
  deriving DecidableEq, Repr

/-- The queue state an operation left behind, when it returned or threw. -/
def GetRes.qstate : GetRes α → Option (ThreadQueue α)
  | .ok _ q => some q
  | .closedEx q => some q
  | .blocks => none

/-- `get()` (value-returning): wait until `!que_.empty() || closed_`; if
still empty (so closed) throw `queue_closed`; else pop the front. -/
def ThreadQueue.get (q : ThreadQueue α) : GetRes α :=
  match q.que with
  | [] => if q.closed then .closedEx q else .blocks
  | v :: rest => .ok v { q with que := rest }

/-- Outcome of the pointer-based blocking `get(value_type*)`: the returned
boolean, the value written through the pointer (none when nothing was
written), and the final state; or a forever-blocked wait. -/
inductive GetPtrRes (α : Type) where
  | ret (r : Bool) (written : Option α) (q : ThreadQueue α)
  | blocks
  deriving DecidableEq, Repr

/-- The queue state an operation left behind, when it returned. -/
def GetPtrRes.qstate : GetPtrRes α → Option (ThreadQueue α)
  | .ret _ _ q => some q
  | .blocks => none

/-- `get(value_type* val)`: `if (!val) return false;` before any lock is
taken; then wait until non-empty or closed; if empty return false; else
pop the front into `*val` and return true.  `valNull` is whether the
pointer argument is null. -/
def ThreadQueue.get_ptr (q : ThreadQueue α) (valNull : Bool) : GetPtrRes α :=
  if valNull then .ret false none q
  else match q.que with
    | [] => if q.closed then .ret false none q else .blocks
    | v :: rest => .ret true (some v) { q with que := rest }

/-- `try_get(value_type* val)`: null check, then pop the front if any. -/
def ThreadQueue.try_get (q : ThreadQueue α) (valNull : Bool) :
    Bool × Option α × ThreadQueue α :=
  if valNull then (false, none, q)
  else match q.que with
    | [] => (false, none, q)
    | v :: rest => (true, some v, { q with que := rest })

/-- `try_get_for(val, relTime)`: null check before the lock; the bounded
wait's return value is discarded by the source, so only the state `q`
observed after the wait matters: if empty return false, else pop. -/
def ThreadQueue.try_get_for (q : ThreadQueue α) (valNull : Bool) :
    Bool × Option α × ThreadQueue α :=
  if valNull then (false, none, q)
  else match q.que with
    | [] => (false, none, q)
    | v :: rest => (true, some v, { q with que := rest })

/-- `try_get_until(val, absTime)`: same decision structure as
`try_get_for`, with `wait_until` in place of `wait_for`. -/
def ThreadQueue.try_get_until (q : ThreadQueue α) (valNull : Bool) :
    Bool × Option α × ThreadQueue α :=
  if valNull then (false, none, q)
  else match q.que with
    | [] => (false, none, q)
    | v :: rest => (true, some v, { q with que := rest })

/-- A sequence of `put` calls, each required to return normally. -/
def putAll (q : ThreadQueue α) : List α → Option (ThreadQueue α)
  | [] => some q
  | v :: vs =>
    match q.put v with
    | .ok q1 => putAll q1 vs
    | _ => none

/-- A sequence of `try_put` calls, each required to return `true`. -/
def tryPutAll (q : ThreadQueue α) : List α → Option (ThreadQueue α)
  | [] => some q
  | v :: vs =>
    match q.try_put v with
    | (true, q1) => tryPutAll q1 vs
    | _ => none

/-- A sequence of `n` value-returning `get()` calls, each required to
return normally; yields the values in call order and the final state. -/
def getSeq : Nat → ThreadQueue α → Option (List α × ThreadQueue α)
  | 0, q => some ([], q)
  | n + 1, q =>
    match q.get with
    | .ok v q1 =>
      match getSeq n q1 with
      | some (vs, qf) => some (v :: vs, qf)
      | none => none
    | _ => none

/-- A normally returning `put` appends at the back and requires the queue
to be open. -/
theorem put_ok_iff (q q1 : ThreadQueue α) (v : α) :
    q.put v = .ok q1 ↔
      q.closed = false ∧ q.que.length < q.cap ∧
        q1 = { q with que := q.que ++ [v] } := by
  unfold ThreadQueue.put
  split
  · rename_i hp
    split
    · rename_i hc
      simp [hc]
    · rename_i hc
      simp only [Bool.not_eq_true] at hc
      rcases hp with hlt | hcl
      · simp [hc, hlt, eq_comm]
      · simp [hc] at hcl
  · rename_i hp
    push_neg at hp
    constructor
    · intro h
      exact absurd h (by simp)
    · rintro ⟨hc, hlt, _⟩
      exact absurd hlt (Nat.not_lt.mpr hp.1)

/-- A sequence of successful `put`s appends the values in order and keeps
the capacity and the closed flag. -/
theorem putAll_eq (vs : List α) : ∀ q q1 : ThreadQueue α,
    putAll q vs = some q1 →
      q1.cap = q.cap ∧ q1.closed = q.closed ∧ q1.que = q.que ++ vs := by
  induction vs with
  | nil =>
    intro q q1 h
    unfold putAll at h
    injection h with h
    subst h
    exact ⟨rfl, rfl, by simp⟩
  | cons v vs ih =>
    intro q q1 h
    unfold putAll at h
    cases hput : q.put v with
    | ok qm =>
      rw [hput] at h
      obtain ⟨hc, _, hqm⟩ := (put_ok_iff q qm v).mp hput
      obtain ⟨ih1, ih2, ih3⟩ := ih qm q1 h
      subst hqm
      refine ⟨ih1, by rw [ih2, hc], ?_⟩
      rw [ih3]; simp
    | closedEx qm => rw [hput] at h; simp at h
    | blocks => rw [hput] at h; simp at h

/-- A successful `try_put` appends at the back and requires room and an
open queue. -/
theorem try_put_true_iff (q q1 : ThreadQueue α) (v : α) :
    q.try_put v = (true, q1) ↔
      q.closed = false ∧ q.que.length < q.cap ∧
        q1 = { q with que := q.que ++ [v] } := by
  unfold ThreadQueue.try_put
  split
  · rename_i hp
    constructor
    · intro h; exact absurd h (by simp)
    · rintro ⟨hc, hlt, _⟩
      rcases hp with hge | hcl
      · exact absurd hlt (by omega)
      · rw [hc] at hcl; exact absurd hcl (by simp)
  · rename_i hp
    push_neg at hp
    obtain ⟨hlt, hc⟩ := hp
    simp [hc, hlt, eq_comm]

/-- A sequence of successful `try_put`s appends the values in order and
keeps the capacity and the closed flag. -/
theorem tryPutAll_eq (vs : List α) : ∀ q q1 : ThreadQueue α,
    tryPutAll q vs = some q1 →
      q1.cap = q.cap ∧ q1.closed = q.closed ∧ q1.que = q.que ++ vs := by
  induction vs with
  | nil =>
    intro q q1 h
    unfold tryPutAll at h
    injection h with h
    subst h
    exact ⟨rfl, rfl, by simp⟩
  | cons v vs ih =>
    intro q q1 h
    unfold tryPutAll at h
    cases hput : q.try_put v with
    | mk b qm =>
      rw [hput] at h
      cases b with
      | false => simp at h
      | true =>
        simp only at h
        obtain ⟨hc, _, hqm⟩ := (try_put_true_iff q qm v).mp hput
        obtain ⟨ih1, ih2, ih3⟩ := ih qm q1 h
        subst hqm
        refine ⟨ih1, by rw [ih2, hc], ?_⟩
        rw [ih3]; simp

/-- `k` successive `get()` calls on a queue holding at least `k` items all
return normally, yielding the first `k` items in order and leaving the
rest; the capacity and the closed flag are untouched. -/
theorem getSeq_eq (k : Nat) : ∀ q : ThreadQueue α, k ≤ q.que.length →
    getSeq k q = some (q.que.take k, { q with que := q.que.drop k }) := by
  induction k with
  | zero => intro q _; simp [getSeq]
  | succ n ih =>
    intro q hk
    cases hq : q.que with
    | nil => rw [hq] at hk; simp at hk
    | cons v rest =>
      have hget : q.get = .ok v { q with que := rest } := by
        unfold ThreadQueue.get; rw [hq]
      have hrest : n ≤ rest.length := by
        rw [hq] at hk; simpa using Nat.le_of_succ_le_succ hk
      have hih := ih { q with que := rest } (by simpa using hrest)
      simp only [getSeq, hget, hih]
      simp [hq]

/-- C2: FIFO order — starting from an empty queue, after `n` successful
`put` calls with values `P1..Pn`, `n` `get` calls all return normally and
yield exactly `P1..Pn` in that order (sequential single-producer /
single-consumer case). -/
theorem fifo_order (q0 q1 : ThreadQueue α) (xs : List α)
    (he : q0.que = []) (hp : putAll q0 xs = some q1) :
    ∃ qf : ThreadQueue α, getSeq xs.length q1 = some (xs, qf) ∧ qf.que = [] := by
  obtain ⟨_, _, hque⟩ := putAll_eq xs q0 q1 hp
  rw [he] at hque
  simp only [List.nil_append] at hque
  have h := getSeq_eq xs.length q1 (le_of_eq (by rw [hque]))
  rw [hque] at h
  simp only [List.take_length, List.drop_length] at h
  exact ⟨{ q1 with que := [] }, h, rfl⟩

/-- C2 witness: `putAll` then `getSeq` on a concrete queue. -/
theorem fifo_order_witness :
    ∃ qf : ThreadQueue Nat,
      getSeq 3 (⟨10, false, [7, 8, 9]⟩ : ThreadQueue Nat) = some ([7, 8, 9], qf) ∧
      qf.que = [] :=
  fifo_order ⟨10, false, []⟩ ⟨10, false, [7, 8, 9]⟩ [7, 8, 9] rfl (by decide)

/-- C1: close-then-drain — after `N` successful `put`s into a fresh open
queue and a `close()`, the next `N` `get()` calls return exactly the `N`
items in FIFO order, the `(N+1)`-th `get()` throws `queue_closed`, and
`done()` is true exactly after the last item is removed, not before. -/
theorem close_then_drain (q0 q1 : ThreadQueue α) (xs : List α)
    (_h0 : q0.closed = false) (he : q0.que = []) (hp : putAll q0 xs = some q1) :
    ∃ qf : ThreadQueue α,
      getSeq xs.length q1.close = some (xs, qf) ∧
      qf.get = .closedEx qf ∧
      qf.done = true ∧
      ∀ k, k ≤ xs.length → ∀ ys qk, getSeq k q1.close = some (ys, qk) →
        (qk.done = true ↔ k = xs.length) := by
  obtain ⟨_, hcl, hque⟩ := putAll_eq xs q0 q1 hp
  rw [he] at hque
  simp only [List.nil_append] at hque
  have hq2 : q1.close.que = xs := hque
  have hc2 : q1.close.closed = true := rfl
  have hall := getSeq_eq xs.length q1.close (le_of_eq (by rw [hq2]))
  rw [hq2] at hall
  simp only [List.take_length, List.drop_length] at hall
  refine ⟨{ q1.close with que := [] }, hall, rfl,
    by simp [ThreadQueue.done, ThreadQueue.is_done, ThreadQueue.close], ?_⟩
  intro k hk ys qk hgk
  have hkth := getSeq_eq k q1.close (by rw [hq2]; exact hk)
  rw [hgk, hq2] at hkth
  have hqk : qk = { q1.close with que := xs.drop k } := by
    injection hkth with h
    exact (Prod.mk.injEq _ _ _ _ ▸ h).2
  subst hqk
  simp only [ThreadQueue.done, ThreadQueue.is_done, Bool.and_eq_true, List.isEmpty_iff]
  constructor
  · rintro ⟨-, hdrop⟩
    have := List.drop_eq_nil_iff.mp hdrop
    omega
  · rintro rfl
    exact ⟨rfl, by simp⟩

/-- C1 witness: two items, close, drain on a concrete queue. -/
theorem close_then_drain_witness :
    ∃ qf : ThreadQueue Nat,
      getSeq 2 (ThreadQueue.close ⟨4, false, [5, 6]⟩) = some ([5, 6], qf) ∧
      qf.get = .closedEx qf ∧
      qf.done = true ∧
      ∀ k, k ≤ 2 → ∀ ys qk,
        getSeq k (ThreadQueue.close (⟨4, false, [5, 6]⟩ : ThreadQueue Nat)) = some (ys, qk) →
        (qk.done = true ↔ k = 2) :=
  close_then_drain ⟨4, false, []⟩ ⟨4, false, [5, 6]⟩ [5, 6] rfl rfl (by decide)

/-- C3: `try_put` returns false exactly when the queue is full or closed,
in which case the state is untouched; otherwise it appends the item at the
back and returns true.  In particular, once a fresh queue has absorbed
`capacity`-many successful `try_put`s, a further `try_put` returns false. -/
theorem try_put_spec (q : ThreadQueue α) (v : α) :
    ((q.try_put v).1 = false ↔ q.cap ≤ q.que.length ∨ q.closed = true) ∧
    ((q.try_put v).1 = false → (q.try_put v).2 = q) ∧
    (¬(q.cap ≤ q.que.length ∨ q.closed = true) →
      q.try_put v = (true, { q with que := q.que ++ [v] })) ∧
    (∀ q0 qc : ThreadQueue α, ∀ vs : List α, q0.que = [] →
      vs.length = q0.cap → tryPutAll q0 vs = some qc →
      (qc.try_put v).1 = false) := by
  refine ⟨?_, ?_, ?_, ?_⟩
  · unfold ThreadQueue.try_put
    split
    · rename_i hp; simpa using hp
    · rename_i hp; simpa using hp
  · unfold ThreadQueue.try_put
    split
    · intro _; rfl
    · intro h; exact absurd h (by simp)
  · intro hp
    unfold ThreadQueue.try_put
    rw [if_neg hp]
  · intro q0 qc vs he hlen hall
    obtain ⟨hcap, _, hque⟩ := tryPutAll_eq vs q0 qc hall
    rw [he] at hque
    simp only [List.nil_append] at hque
    have hfull : qc.cap ≤ qc.que.length := by rw [hcap, hque, ← hlen]
    unfold ThreadQueue.try_put
    rw [if_pos (Or.inl hfull)]

/-- C3 witness: a queue of capacity 1 absorbs one `try_put` and rejects
the next. -/
theorem try_put_spec_witness :
    ((ThreadQueue.try_put (⟨1, false, [0]⟩ : ThreadQueue Nat) 5).1 = false) ∧
    ((ThreadQueue.try_put (⟨1, false, []⟩ : ThreadQueue Nat) 5).1 = false ↔
      (1 : Nat) ≤ 0 ∨ false = true) :=
  ⟨(try_put_spec ⟨1, false, [0]⟩ 5).2.2.2 ⟨1, false, []⟩ ⟨1, false, [0]⟩ [0]
      rfl rfl (by decide),
    (try_put_spec ⟨1, false, []⟩ 5).1⟩

/-- C4: the bounded-wait enqueues `try_put_for` / `try_put_until` return
false with the state untouched when the wait timed out or the queue is
closed at wake, and return true having appended the item otherwise. -/
theorem try_put_timed_spec (q : ThreadQueue α) (v : α) (tmo : Bool) :
    ((tmo = true ∨ q.closed = true) →
      q.try_put_for v tmo = (false, q) ∧ q.try_put_until v tmo = (false, q)) ∧
    (tmo = false → q.closed = false →
      q.try_put_for v tmo = (true, { q with que := q.que ++ [v] }) ∧
      q.try_put_until v tmo = (true, { q with que := q.que ++ [v] })) := by
  unfold ThreadQueue.try_put_for ThreadQueue.try_put_until
  constructor
  · intro h
    rw [if_pos h]
    exact ⟨rfl, rfl⟩
  · intro h1 h2
    rw [if_neg (by simp [h1, h2])]
    exact ⟨rfl, rfl⟩

/-- C4 witness: timeout rejects, no-timeout on an open queue appends. -/
theorem try_put_timed_spec_witness :
    (ThreadQueue.try_put_for (⟨2, false, []⟩ : ThreadQueue Nat) 3 true = (false, ⟨2, false, []⟩) ∧
      ThreadQueue.try_put_until (⟨2, false, []⟩ : ThreadQueue Nat) 3 true = (false, ⟨2, false, []⟩)) ∧
    (ThreadQueue.try_put_for (⟨2, false, []⟩ : ThreadQueue Nat) 3 false = (true, ⟨2, false, [3]⟩) ∧
      ThreadQueue.try_put_until (⟨2, false, []⟩ : ThreadQueue Nat) 3 false = (true, ⟨2, false, [3]⟩)) :=
  ⟨(try_put_timed_spec ⟨2, false, []⟩ 3 true).1 (Or.inl rfl),
    (try_put_timed_spec ⟨2, false, []⟩ 3 false).2 rfl rfl⟩

/-- C5: every pointer-based dequeue variant given a null destination
pointer fails immediately (returns false, writes nothing) and leaves the
queue state completely unchanged. -/
theorem null_dest_rejected (q : ThreadQueue α) :
    q.get_ptr true = .ret false none q ∧
    q.try_get true = (false, none, q) ∧
    q.try_get_for true = (false, none, q) ∧
    q.try_get_until true = (false, none, q) :=
  ⟨rfl, rfl, rfl, rfl⟩

/-- Both constructors and the capacity setter clamp the capacity to at
least 1, so every reachable queue has a positive capacity. -/
theorem cap_pos_established (β : Type) (n : Nat) :
    0 < (ThreadQueue.mk_default β).cap ∧ 0 < (ThreadQueue.mk_bounded β n).cap ∧
    ∀ q : ThreadQueue β, 0 < (q.set_capacity n).cap := by
  refine ⟨?_, ?_, ?_⟩
  · unfold ThreadQueue.mk_default MAX_CAPACITY
    norm_num
  · simp [ThreadQueue.mk_bounded]
  · intro q; simp [ThreadQueue.set_capacity]

/-- C6: the closed flag is monotonic — no operation takes it from true
back to false — and once `done` (closed and empty) holds, every operation
leaves the queue done: the state is terminal. -/
theorem closed_monotone_done_terminal (q : ThreadQueue α) (v : α) (n : Nat)
    (b tmo : Bool) (hc : q.closed = true) :
    (∀ q1, (q.put v).qstate = some q1 → q1.closed = true) ∧
    (q.try_put v).2.closed = true ∧
    (q.try_put_for v tmo).2.closed = true ∧
    (q.try_put_until v tmo).2.closed = true ∧
    (∀ q1, q.get.qstate = some q1 → q1.closed = true) ∧
    (∀ q1, (q.get_ptr b).qstate = some q1 → q1.closed = true) ∧
    (q.try_get b).2.2.closed = true ∧
    (q.try_get_for b).2.2.closed = true ∧
    (q.try_get_until b).2.2.closed = true ∧
    q.clear.closed = true ∧
    (q.set_capacity n).closed = true ∧
    q.close.closed = true ∧
    (q.done = true →
      (q.put v).qstate = some q ∧
      q.try_put v = (false, q) ∧
      q.try_put_for v tmo = (false, q) ∧
      q.try_put_until v tmo = (false, q) ∧
      q.get = .closedEx q ∧
      (∀ b1, q.get_ptr b1 = .ret false none q) ∧
      (∀ b1, q.try_get b1 = (false, none, q)) ∧
      (∀ b1, q.try_get_for b1 = (false, none, q)) ∧
      (∀ b1, q.try_get_until b1 = (false, none, q)) ∧
      q.clear.done = true ∧
      (q.set_capacity n).done = true ∧
      q.close.done = true) := by
  have hput : q.put v = .closedEx q := by simp [ThreadQueue.put, hc]
  refine ⟨?_, ?_, ?_, ?_, ?_, ?_, ?_, ?_, ?_, hc, hc, rfl, ?_⟩
  · intro q1 h
    rw [hput] at h
    simp only [PutRes.qstate] at h
    injection h with h
    rw [← h]; exact hc
  · simp [ThreadQueue.try_put, hc]
  · simp [ThreadQueue.try_put_for, hc]
  · simp [ThreadQueue.try_put_until, hc]
  · intro q1 h
    cases hque : q.que with
    | nil =>
      have hg : q.get = .closedEx q := by
        unfold ThreadQueue.get; rw [hque]; simp [hc]
      rw [hg] at h
      simp only [GetRes.qstate] at h
      injection h with h
      rw [← h]; exact hc
    | cons w rest =>
      have hg : q.get = .ok w { q with que := rest } := by
        unfold ThreadQueue.get; rw [hque]
      rw [hg] at h
      simp only [GetRes.qstate] at h
      injection h with h
      rw [← h]; exact hc
  · intro q1 h
    cases b with
    | true =>
      have hg : q.get_ptr true = .ret false none q := rfl
      rw [hg] at h
      simp only [GetPtrRes.qstate] at h
      injection h with h
      rw [← h]; exact hc
    | false =>
      cases hque : q.que with
      | nil =>
        have hg : q.get_ptr false = .ret false none q := by
          unfold ThreadQueue.get_ptr; rw [hque]; simp [hc]
        rw [hg] at h
        simp only [GetPtrRes.qstate] at h
        injection h with h
        rw [← h]; exact hc
      | cons w rest =>
        have hg : q.get_ptr false = .ret true (some w) { q with que := rest } := by
          unfold ThreadQueue.get_ptr; rw [hque]; simp
        rw [hg] at h
        simp only [GetPtrRes.qstate] at h
        injection h with h
        rw [← h]; exact hc
  · cases b <;> cases hque : q.que <;> simp [ThreadQueue.try_get, hque, hc]
  · cases b <;> cases hque : q.que <;> simp [ThreadQueue.try_get_for, hque, hc]
  · cases b <;> cases hque : q.que <;> simp [ThreadQueue.try_get_until, hque, hc]
  · intro hd
    have hque : q.que = [] := by
      simp only [ThreadQueue.done, ThreadQueue.is_done, Bool.and_eq_true,
        List.isEmpty_iff] at hd
      exact hd.2
    refine ⟨by rw [hput]; rfl, by simp [ThreadQueue.try_put, hc],
      by simp [ThreadQueue.try_put_for, hc], by simp [ThreadQueue.try_put_until, hc],
      by unfold ThreadQueue.get; rw [hque]; simp [hc], ?_, ?_, ?_, ?_,
      by simp [ThreadQueue.clear, ThreadQueue.done, ThreadQueue.is_done, hc],
      by simp [ThreadQueue.set_capacity, ThreadQueue.done, ThreadQueue.is_done, hc, hque],
      by simp [ThreadQueue.close, ThreadQueue.done, ThreadQueue.is_done, hque]⟩
    · intro b1
      cases b1 with
      | true => rfl
      | false => unfold ThreadQueue.get_ptr; rw [hque]; simp [hc]
    · intro b1
      cases b1 with
      | true => rfl
      | false => unfold ThreadQueue.try_get; rw [hque]; simp
    · intro b1
      cases b1 with
      | true => rfl
      | false => unfold ThreadQueue.try_get_for; rw [hque]; simp
    · intro b1
      cases b1 with
      | true => rfl
      | false => unfold ThreadQueue.try_get_until; rw [hque]; simp

/-- C6 witness: a concrete closed queue keeps its closed flag across
`try_put` and `clear`. -/
theorem closed_monotone_done_terminal_witness :
    (ThreadQueue.try_put (⟨3, true, [1]⟩ : ThreadQueue Nat) 7).2.closed = true ∧
    (ThreadQueue.clear (⟨3, true, [1]⟩ : ThreadQueue Nat)).closed = true :=
  ⟨(closed_monotone_done_terminal ⟨3, true, [1]⟩ 7 0 false false rfl).2.1,
    (closed_monotone_done_terminal ⟨3, true, [1]⟩ 7 0 false false
        rfl).2.2.2.2.2.2.2.2.2.1⟩

/-- C7: the capacity setter never evicts — the item sequence (hence the
size) and the closed flag are untouched; only the capacity field changes,
to the requested value clamped to a minimum of 1. -/
theorem set_capacity_no_evict (q : ThreadQueue α) (n : Nat) :
    (q.set_capacity n).que = q.que ∧
    (q.set_capacity n).size = q.size ∧
    (q.set_capacity n).closed = q.closed ∧
    (q.set_capacity n).cap = max n 1 :=
  ⟨rfl, rfl, rfl, rfl⟩

/-- C8: `clear()` on an open queue empties it, leaves it open with the
same capacity, and a subsequent `put` succeeds normally, enqueuing the
item.  The positive-capacity hypothesis holds for every reachable queue
(`cap_pos_established`). -/
theorem clear_discards_without_closing (q : ThreadQueue α) (v : α)
    (ho : q.closed = false) (hcap : 0 < q.cap) :
    q.clear.que = [] ∧ q.clear.closed = false ∧ q.clear.cap = q.cap ∧
    q.clear.put v = .ok { q with que := [v] } := by
  refine ⟨rfl, ho, rfl, ?_⟩
  unfold ThreadQueue.put ThreadQueue.clear
  simp [ho, hcap]

/-- C8 witness: clear a concrete open queue, then put. -/
theorem clear_discards_without_closing_witness :
    (ThreadQueue.clear (⟨3, false, [1, 2]⟩ : ThreadQueue Nat)).que = [] ∧
    (ThreadQueue.clear (⟨3, false, [1, 2]⟩ : ThreadQueue Nat)).closed = false ∧
    (ThreadQueue.clear (⟨3, false, [1, 2]⟩ : ThreadQueue Nat)).cap = 3 ∧
    (ThreadQueue.clear (⟨3, false, [1, 2]⟩ : ThreadQueue Nat)).put 9 =
      .ok ⟨3, false, [9]⟩ :=
  clear_discards_without_closing ⟨3, false, [1, 2]⟩ 9 rfl (by decide)

/-- C9: on a closed, drained queue the pointer-based blocking `get`
returns false with nothing written — exactly the result it gives for a
null destination pointer — while only the value-returning `get()` throws
`queue_closed`; the pointer variant's boolean result alone cannot separate
the two situations. -/
theorem get_ptr_closed_indistinct (q : ThreadQueue α)
    (hc : q.closed = true) (he : q.que = []) :
    q.get_ptr false = .ret false none q ∧
    q.get_ptr true = .ret false none q ∧
    q.get = .closedEx q := by
  refine ⟨?_, rfl, ?_⟩
  · unfold ThreadQueue.get_ptr; rw [he]; simp [hc]
  · unfold ThreadQueue.get; rw [he]; simp [hc]

/-- C9 witness: concrete closed empty queue. -/
theorem get_ptr_closed_indistinct_witness :
    ThreadQueue.get_ptr (⟨2, true, []⟩ : ThreadQueue Nat) false =
      .ret false none ⟨2, true, []⟩ ∧
    ThreadQueue.get_ptr (⟨2, true, []⟩ : ThreadQueue Nat) true =
      .ret false none ⟨2, true, []⟩ ∧
    ThreadQueue.get (⟨2, true, []⟩ : ThreadQueue Nat) = .closedEx ⟨2, true, []⟩ :=
  get_ptr_closed_indistinct ⟨2, true, []⟩ rfl rfl

/-- C10: on a closed, non-empty queue — not yet done — `clear()` makes
`done()` true immediately: the terminal state is reachable by bulk
discard, not only by draining item by item. -/
theorem clear_reaches_done (q : ThreadQueue α)
    (hc : q.closed = true) (hne : q.que ≠ []) :
    q.done = false ∧ q.clear.done = true := by
  constructor
  · simp [ThreadQueue.done, ThreadQueue.is_done, hne]
  · simp [ThreadQueue.done, ThreadQueue.is_done, ThreadQueue.clear, hc]

/-- C10 witness: concrete closed one-item queue. -/
theorem clear_reaches_done_witness :
    ThreadQueue.done (⟨1, true, [4]⟩ : ThreadQueue Nat) = false ∧
    (ThreadQueue.clear (⟨1, true, [4]⟩ : ThreadQueue Nat)).done = true :=
  clear_reaches_done ⟨1, true, [4]⟩ rfl (by decide)

end Mqtt
